import Mathlib

/-!
Verification development for helium-dailypricer (src/heliumapi.py and
src/dailypricer.py).

Modelling conventions.
The code stores ISO-8601 timestamp strings in SQLite TEXT columns and compares
them with SQL BETWEEN / MIN / MAX; for such strings lexicographic order agrees
with chronological order, so instants are modelled as integers.  Calendar dates
are modelled as Python date ordinals (date.toordinal(), so 2017-07-29 is
736539), datetimes as microseconds counted from ordinal day 0.  SQLite tables
are modelled as lists of rows; REPLACE deletes the rows that collide on the
key of the incoming row and appends the new row.  The remote HTTP API is a
parameter of each operation (a structure of response functions); transport or
decode failures are represented by Option results.  Network traffic performed
by a call is returned explicitly so that claims about "no remote fetch" can be
stated.
-/

/-- Python datetime.timedelta restricted to the fields this code uses.
Python normalizes so that 0 <= seconds < 86400, with floor division on days. -/
structure Timedelta where
  days : Int
  seconds : Int
deriving Repr, DecidableEq

/-- Build a timedelta from a number of seconds, with Python normalization
(floor division / modulo). -/
def tdOfSeconds (s : Int) : Timedelta :=
  ⟨Int.fdiv s 86400, Int.emod s 86400⟩

/-- ONE_SEC from heliumapi.earnings: timedelta(seconds=1). -/
def ONE_SEC : Timedelta := tdOfSeconds 1

/-- CPython date.__add__: a date plus a timedelta uses only the timedelta day
count (the seconds are discarded). -/
def dateAddTd (d : Int) (t : Timedelta) : Int := d + t.days

/-- CPython date.__sub__: implemented as self + timedelta(-other.days), so
again only the day count matters. -/
def dateSubTd (d : Int) (t : Timedelta) : Int := d + (-t.days)

/-- HELIUM_BLOCKCHAIN_START = 2017-07-29 as a Python date ordinal. -/
def HELIUM_BLOCKCHAIN_START : Int := 736539

/-- Microseconds per day, for the datetime model. -/
def US_PER_DAY : Int := 86400000000

/-- HELIUM_ORACLE_START = 2020-06-10T00:00:00 (ordinal 737586) in microseconds. -/
def HELIUM_ORACLE_START : Int := 737586 * US_PER_DAY

/-- BONES_PER_HNT = 100000000. -/
def BONES_PER_HNT : Int := 100000000

/-! ## DailyRewards table (heliumapi.py) -/

/-- One row of the DailyRewards table:
(timestamp TEXT, address TEXT, sum_bones INTEGER, UNIQUE(timestamp, address)). -/
structure RewardRow where
  timestamp : Int
  address : String
  sum_bones : Int
deriving Repr, DecidableEq

/-- The DailyRewards table, as its list of rows. -/
abbrev RewardStore := List RewardRow

/-- Rows collide exactly when they agree on the UNIQUE(timestamp, address) key. -/
def keyEq (a b : RewardRow) : Bool :=
  a.timestamp == b.timestamp && a.address == b.address

/-- REPLACE INTO DailyRewards: delete the rows that collide on the unique key,
then insert the new row. -/
def dbRewardReplace (st : RewardStore) (row : RewardRow) : RewardStore :=
  st.filter (fun q => !(keyEq q row)) ++ [row]

/-- Python list slicing into chunks, as in _db_reward_put_many and
_db_price_put_many: chunksOf n l yields slices of length n+1 (the code uses
CHUNK_SIZE = 50, i.e. chunksOf 49). -/
def chunksOf (n : Nat) : List α → List (List α)
  | [] => []
  | x :: xs => (x :: xs.take n) :: chunksOf n (xs.drop n)
termination_by l => l.length
decreasing_by simp only [List.length_cons, List.length_drop]; omega

/-- One reward record as returned by the rewards/sum API: the code reads its
"timestamp" and "sum" keys. -/
structure ApiReward where
  timestamp : Int
  sum : Int
deriving Repr, DecidableEq

/-- heliumapi._db_reward_put_many: REPLACE each record, in chunks of 50; the
address column is taken from the function argument, not from the record. -/
def dbRewardPutMany (address : String) (rewards : List ApiReward)
    (st : RewardStore) : RewardStore :=
  (chunksOf 49 rewards).foldl
    (fun s chunk =>
      chunk.foldl (fun s2 r => dbRewardReplace s2 ⟨r.timestamp, address, r.sum⟩) s)
    st

/-- Insert a row into a timestamp-sorted list (for ORDER BY timestamp ASC). -/
def insertByTimestamp (r : RewardRow) : List RewardRow → List RewardRow
  | [] => [r]
  | x :: xs =>
      if r.timestamp ≤ x.timestamp then r :: x :: xs
      else x :: insertByTimestamp r xs

/-- Sort rows by timestamp ascending. -/
def sortByTimestamp (l : List RewardRow) : List RewardRow :=
  l.foldr insertByTimestamp []

/-- heliumapi._db_reward_fetch: SELECT rows of the address whose timestamp is
BETWEEN start AND stop (SQL BETWEEN is inclusive at both ends), ORDER BY
timestamp ASC. -/
def dbRewardFetch (st : RewardStore) (address : String) (start stop : Int) :
    List RewardRow :=
  sortByTimestamp
    (st.filter (fun r =>
      r.address == address && decide (start ≤ r.timestamp)
        && decide (r.timestamp ≤ stop)))

/-- heliumapi._db_reward_max_min: MIN and MAX timestamp over the rows of the
address with sum_bones > 0.  In Python the two aggregates are returned as a
pair of optionals that are None together; here the pair is bundled. -/
def dbRewardMaxMin (st : RewardStore) (address : String) : Option (Int × Int) :=
  let xs := (st.filter (fun r =>
    r.address == address && decide (0 < r.sum_bones))).map (fun r => r.timestamp)
  match xs.min?, xs.max? with
  | some mn, some mx => some (mn, mx)
  | _, _ => none

/-! ## Remote reward source and earnings (heliumapi.py) -/

/-- Behaviour of the remote API as seen by _api_reward_fetch: the address
classification answers and, per (min_time, max_time) window, the merged record
list the paged request yields (already degraded to a partial or empty list on
transport errors, as _api_request does). -/
structure RewardRemote where
  isValidator : Bool
  isHotspot : Bool
  rewardsSum : Int → Int → List ApiReward

/-- One invocation of _api_reward_fetch, recorded as the (min_time, max_time)
window it was asked to cover. -/
structure FetchCall where
  min_time : Int
  max_time : Int
deriving Repr, DecidableEq

/-- heliumapi._api_reward_fetch: classify the address; if it is neither a
validator nor a hotspot return [] without touching the DB; otherwise fetch the
window and REPLACE the records into the DB.  Returns the updated store and the
fetched records. -/
def apiRewardFetch (remote : RewardRemote) (address : String)
    (start stop : Int) (st : RewardStore) : RewardStore × List ApiReward :=
  if remote.isValidator || remote.isHotspot then
    let ret := remote.rewardsSum start stop
    (dbRewardPutMany address ret st, ret)
  else
    (st, [])

/-- Result of one earnings call: the final store, the _api_reward_fetch calls
that were issued (in order), and the returned reward list. -/
structure EarningsOut where
  store : RewardStore
  calls : List FetchCall
  result : List RewardRow
deriving Repr, DecidableEq

/-- heliumapi.earnings: clamp start to the blockchain start date, read the
positive-sum watermark, fetch the whole window if there is none, otherwise
extend backward when start precedes the low watermark and forward when stop
exceeds the high watermark (with the one-second overlaps written in the
source, which are no-ops under Python date arithmetic), then answer from the
DB over [start, stop] (SQL BETWEEN). -/
def earnings (remote : RewardRemote) (address : String) (start stop : Int)
    (st : RewardStore) : EarningsOut :=
  let start1 := max start HELIUM_BLOCKCHAIN_START
  match dbRewardMaxMin st address with
  | none =>
      let st1 := (apiRewardFetch remote address start1 stop st).1
      ⟨st1, [⟨start1, stop⟩], dbRewardFetch st1 address start1 stop⟩
  | some (dbMin, dbMax) =>
      let st1 :=
        if start1 < dbMin then
          (apiRewardFetch remote address start1 (dateAddTd dbMin ONE_SEC) st).1
        else st
      let c1 : List FetchCall :=
        if start1 < dbMin then [⟨start1, dateAddTd dbMin ONE_SEC⟩] else []
      let st2 :=
        if dbMax < stop then
          (apiRewardFetch remote address (dateSubTd dbMax ONE_SEC) stop st1).1
        else st1
      let c2 : List FetchCall :=
        if dbMax < stop then [⟨dateSubTd dbMax ONE_SEC, stop⟩] else []
      ⟨st2, c1 ++ c2, dbRewardFetch st2 address start1 stop⟩

/-! ## OraclePrices table and price resolution (heliumapi.py) -/

/-- One row of the OraclePrices table:
(block INTEGER PRIMARY KEY, timestamp TEXT, price_bones INTEGER). -/
structure PriceRow where
  block : Int
  timestamp : Int
  price_bones : Int
deriving Repr, DecidableEq

/-- The OraclePrices table, as its list of rows. -/
abbrev PriceStore := List PriceRow

/-- heliumapi._db_price_put: REPLACE keyed on the block primary key. -/
def dbPricePut (block ts price : Int) (st : PriceStore) : PriceStore :=
  st.filter (fun r => !(r.block == block)) ++ [⟨block, ts, price⟩]

/-- heliumapi._db_price_at_time: SELECT block, max(timestamp), price_bones
WHERE timestamp = t.  With no matching row the aggregate query yields a NULL
row (price None); with matching rows SQLite pairs the bare columns with a row
achieving the max, which row being unspecified among ties - the model takes
the last one.  Only the price field is consumed by the caller. -/
def dbPriceAtTime (st : PriceStore) (t : Int) : Option Int :=
  ((st.filter (fun r => r.timestamp == t)).map (fun r => r.price_bones)).getLast?

/-- Behaviour of the remote API as seen by _cache_oracle_price: the
block-at-time lookup (blocks/height with max_time) and the price-at-block
lookup (oracle/prices/block), each returning none on any failure.
The price lookup yields the block and price fields of the response record. -/
structure PriceRemote where
  blockAtTime : Int → Option Int
  priceAtBlock : Int → Option (Int × Int)

/-- heliumapi._cache_oracle_price: resolve block then price, persist on
success; on any failure log and leave the store untouched (nothing is
persisted). -/
def cacheOraclePrice (remote : PriceRemote) (ts : Int) (st : PriceStore) :
    PriceStore :=
  match remote.blockAtTime ts with
  | none => st
  | some h =>
      match remote.priceAtBlock h with
      | none => st
      | some (b, p) => dbPricePut b ts p st

/-- End-of-day instant used by oracle_price_for_day:
datetime.combine(day, midnight) + timedelta(days=1, microseconds=-1),
i.e. 23:59:59.999999 of the day, in microseconds. -/
def endOfDay (day : Int) : Int := (day + 1) * US_PER_DAY - 1

/-- Result of one oracle_price_for_day call: final store, returned price and
whether _cache_oracle_price (remote resolution) was invoked. -/
structure PriceOut where
  store : PriceStore
  price : Int
  attemptedRemote : Bool
deriving Repr, DecidableEq

/-- heliumapi.oracle_price_for_day: return 0 before the oracle start; look the
end-of-day instant up in the DB; on a miss run _cache_oracle_price; look up
again and return the found price, defaulting to 0. -/
def oraclePriceForDay (remote : PriceRemote) (day : Int) (st : PriceStore) :
    PriceOut :=
  let ts := endOfDay day
  if ts < HELIUM_ORACLE_START then ⟨st, 0, false⟩
  else
    let r1 := dbPriceAtTime st ts
    let st1 := if r1.isNone then cacheOraclePrice remote ts st else st
    let r2 := dbPriceAtTime st1 ts
    ⟨st1, r2.getD 0, r1.isNone⟩

/-- Price resolution fails when the block lookup fails or the price lookup for
the resolved block fails: exactly the cases where _cache_oracle_price persists
nothing. -/
def priceResolutionFails (remote : PriceRemote) (ts : Int) : Prop :=
  match remote.blockAtTime ts with
  | none => True
  | some h => remote.priceAtBlock h = none

/-! ## Paged fetcher (dailypricer.paged_api_request) -/

/-- One scripted response of the remote source: a transport or decode error, a
response whose data field is not a list (an optional single object), or a page
with a record list and an optional cursor. -/
inductive PageResp where
  | err
  | obj (v : Option Int)
  | page (recs : List Int) (cursor : Option String)
deriving Repr, DecidableEq

/-- Result of one paged_api_request call: the returned value (the accumulated
list, or the non-list data object), the cursor entry left in the
query_params dict (which for the default-argument call is a module-lifetime
shared object), and the cursor parameter sent on each HTTP request. -/
structure PagedOut where
  result : Sum (List Int) (Option Int)
  dictCursor : Option String
  requests : List (Option String)
deriving Repr, DecidableEq

/-- The while loop of paged_api_request.  dictC is the cursor entry of the
query_params dict, c the cursor local variable, acc the accumulated records,
reqs the requests issued so far.  At the top of each iteration the cursor is
written into the dict when it is not None; the next scripted response is then
consumed.  Script exhaustion plays the transport-error role.  The loop always
returns normally: errors break out and return the accumulator. -/
def pagedGo (dictC c : Option String) (acc : List Int)
    (reqs : List (Option String)) : List PageResp → PagedOut
  | [] =>
      let dictC1 := if c.isSome then c else dictC
      ⟨Sum.inl acc, dictC1, reqs ++ [dictC1]⟩
  | resp :: rest =>
      let dictC1 := if c.isSome then c else dictC
      let reqs1 := reqs ++ [dictC1]
      match resp with
      | PageResp.err => ⟨Sum.inl acc, dictC1, reqs1⟩
      | PageResp.obj v => ⟨Sum.inr v, dictC1, reqs1⟩
      | PageResp.page recs cur =>
          match cur with
          | none => ⟨Sum.inl (acc ++ recs), dictC1, reqs1⟩
          | some cc => pagedGo dictC1 (some cc) (acc ++ recs) reqs1 rest

/-- dailypricer.paged_api_request, with the state of the (shared, mutable)
default query_params dict passed and returned explicitly: dictCursor is its
cursor entry on entry. -/
def pagedApiRequest (script : List PageResp) (dictCursor : Option String) :
    PagedOut :=
  pagedGo dictCursor none [] [] script

/-! ## Daily rollup (dailypricer.hotspot_earnings_daily) -/

/-- One reward record as consumed by the rollup: the timestamp already
truncated to its UTC calendar day key (dateparse(ts).date().isoformat()), the
amount in bones, and the block used for the price lookup. -/
structure DPReward where
  day : String
  amount : Int
  block : Int
deriving Repr, DecidableEq

/-- The rollup accumulator: insertion-ordered (day, hnt, usd) entries, as a
Python dict of two-field records.  All arithmetic the source does on these
values with binary floats is modelled over the rationals. -/
abbrev Rollup := List (String × ℚ × ℚ)

/-- Add the increments of one record to its day entry, as the defaultdict
does: update an existing day in place, append a fresh day initialised to
(0, 0) plus the increments. -/
def rollupAdd : Rollup → String → ℚ → ℚ → Rollup
  | [], day, dh, du => [(day, dh, du)]
  | (d, h, u) :: rest, day, dh, du =>
      if d = day then (d, h + dh, u + du) :: rest
      else (d, h, u) :: rollupAdd rest day dh du

/-- dailypricer.hotspot_earnings_daily, with the fetched reward list and the
oracle price per block as parameters: per record, hnt = amount / BONES_PER_HNT
and price = oracle price / BONES_PER_HNT are accumulated into the record's
day entry as hnt and price * hnt. -/
def hotspotEarningsDaily (priceAtBlock : Int → Int)
    (rewards : List DPReward) : Rollup :=
  rewards.foldl
    (fun m r =>
      let hnt : ℚ := (r.amount : ℚ) / (BONES_PER_HNT : ℚ)
      let price : ℚ := (priceAtBlock r.block : ℚ) / (BONES_PER_HNT : ℚ)
      rollupAdd m r.day hnt (price * hnt))
    []

/-! ## Concrete remotes used in witnesses and counterexamples -/

/-- A remote reward source that classifies the address as a validator and
returns no records for any window. -/
def emptyRewardRemote : RewardRemote := ⟨true, false, fun _ _ => []⟩

/-- A price remote whose block lookup always fails (transport error). -/
def failingPriceRemote : PriceRemote := ⟨fun _ => none, fun _ => none⟩

/-! ## Chunked fold equals flat fold -/

/-- Folding chunk by chunk is folding the original list (length-bounded
induction). -/
theorem foldl_chunksOf_aux {α β : Type} (f : β → α → β) (n : Nat) :
    ∀ (k : Nat) (l : List α) (st : β), l.length ≤ k →
      (chunksOf n l).foldl (fun s c => c.foldl f s) st = l.foldl f st := by
  intro k
  induction k with
  | zero =>
      intro l st h
      have hl : l = [] := List.length_eq_zero.mp (Nat.le_zero.mp h)
      subst hl
      simp [chunksOf]
  | succ k ih =>
      intro l st h
      cases l with
      | nil => simp [chunksOf]
      | cons x xs =>
          have hlen : (xs.drop n).length ≤ k := by
            simp only [List.length_drop]
            simp only [List.length_cons] at h
            omega
          rw [chunksOf, List.foldl_cons, ih (xs.drop n) _ hlen,
            ← List.foldl_append]
          congr 1
          simp [List.take_append_drop]

/-- _db_reward_put_many is the plain left fold of REPLACE over the records
(the chunking is only a commit batching detail). -/
theorem dbRewardPutMany_eq_foldl (address : String) (rewards : List ApiReward)
    (st : RewardStore) :
    dbRewardPutMany address rewards st
      = (rewards.map (fun r => (⟨r.timestamp, address, r.sum⟩ : RewardRow))).foldl
          dbRewardReplace st := by
  rw [dbRewardPutMany,
    foldl_chunksOf_aux _ 49 rewards.length rewards st le_rfl, List.foldl_map]

/-! ## REPLACE folds: last-write characterization and idempotence -/

/-- Keep only the last occurrence of each unique key, in order. -/
def lastWrites : List RewardRow → List RewardRow
  | [] => []
  | r :: rest =>
      if rest.any (fun x => keyEq r x) then lastWrites rest
      else r :: lastWrites rest

/-- A REPLACE fold leaves the rows of the store whose key is never written,
followed by the last write of each written key. -/
theorem foldl_dbRewardReplace_eq (rows : List RewardRow) :
    ∀ st : RewardStore,
      rows.foldl dbRewardReplace st
        = st.filter (fun q => !(rows.any (fun x => keyEq q x))) ++ lastWrites rows := by
  induction rows with
  | nil => intro st; simp [lastWrites]
  | cons r rest ih =>
      intro st
      rw [List.foldl_cons, ih, dbRewardReplace, List.filter_append,
        List.filter_filter, List.filter_singleton, lastWrites]
      have hpred : ∀ q : RewardRow,
          ((!(rest.any (fun x => keyEq q x))) && !(keyEq q r))
            = !((r :: rest).any (fun x => keyEq q x)) := by
        intro q
        simp [List.any_cons, Bool.and_comm]
      by_cases h : rest.any (fun x => keyEq r x)
      · simp only [h, if_true]
        rw [List.filter_congr (fun q _ => hpred q)]
        simp [h]
      · simp only [h]
        rw [List.filter_congr (fun q _ => hpred q)]
        simp [h]

/-- Rows surviving to lastWrites come from the written list. -/
theorem mem_lastWrites {q : RewardRow} :
    ∀ {rows : List RewardRow}, q ∈ lastWrites rows → q ∈ rows := by
  intro rows
  induction rows with
  | nil => intro h; simp [lastWrites] at h
  | cons r rest ih =>
      intro h
      rw [lastWrites] at h
      by_cases hc : rest.any (fun x => keyEq r x)
      · rw [if_pos hc] at h
        exact List.mem_cons_of_mem r (ih h)
      · rw [if_neg hc] at h
        rcases List.mem_cons.mp h with h1 | h2
        · exact h1 ▸ List.mem_cons_self q rest
        · exact List.mem_cons_of_mem r (ih h2)

/-- Every row of lastWrites has its key written, so filtering the unwritten
keys out of it gives the empty list. -/
theorem lastWrites_filter_nil (rows : List RewardRow) :
    (lastWrites rows).filter (fun q => !(rows.any (fun x => keyEq q x))) = [] := by
  rw [List.filter_eq_nil_iff]
  intro q hq
  have hmem : q ∈ rows := mem_lastWrites hq
  have hany : (rows.any fun x => keyEq q x) = true :=
    List.any_eq_true.mpr ⟨q, hmem, by simp [keyEq]⟩
  simp [hany]

/-- Running the same REPLACE fold twice equals running it once. -/
theorem foldl_dbRewardReplace_idem (rows : List RewardRow) (st : RewardStore) :
    rows.foldl dbRewardReplace (rows.foldl dbRewardReplace st)
      = rows.foldl dbRewardReplace st := by
  rw [foldl_dbRewardReplace_eq, foldl_dbRewardReplace_eq, List.filter_append,
    lastWrites_filter_nil, List.append_nil, List.filter_filter]
  simp [Bool.and_self]

/-- C5: persisting the same record list twice with _db_reward_put_many leaves
the DailyRewards table exactly as persisting it once: the REPLACE discipline
keyed on (timestamp, address) neither duplicates rows nor double-counts sums. -/
theorem c5_db_reward_put_many_idem (address : String) (rewards : List ApiReward)
    (st : RewardStore) :
    dbRewardPutMany address rewards (dbRewardPutMany address rewards st)
      = dbRewardPutMany address rewards st := by
  rw [dbRewardPutMany_eq_foldl, dbRewardPutMany_eq_foldl,
    foldl_dbRewardReplace_idem]

/-! ## Closed evaluations: counterexamples and concrete checks -/

/-- C1 counterexample: with an empty cache and start = 736000 (a date before
the blockchain start 736539 = 2017-07-29), earnings does not fetch the full
requested window [start, stop); it fetches the clamped window
[736539, stop) instead. -/
theorem c1_counterexample :
    (earnings emptyRewardRemote "a" 736000 736600 []).calls
        = [⟨736539, 736600⟩]
      ∧ (earnings emptyRewardRemote "a" 736000 736600 []).calls
        ≠ [⟨736000, 736600⟩] := by decide

/-- C2 failing input evaluated: with cached rows at timestamps 736595 and
736600 for address a, earnings over [736595, 736600) issues no remote fetch
yet returns the row whose timestamp equals stop, because the SQL BETWEEN of
_db_reward_fetch is inclusive at stop - contradicting the half-open contract
of the earnings docstring and the claim. -/
theorem c2_bug_returns_stop :
    (earnings emptyRewardRemote "a" 736595 736600
        [⟨736595, "a", 5⟩, ⟨736600, "a", 5⟩]).calls = []
      ∧ (earnings emptyRewardRemote "a" 736595 736600
          [⟨736595, "a", 5⟩, ⟨736600, "a", 5⟩]).result
        = [⟨736595, "a", 5⟩, ⟨736600, "a", 5⟩] := by decide

/-- C3 counterexample: on day 737600 (in the oracle era) with an empty price
store and a remote whose block lookup fails, oracle_price_for_day returns 0
but persists nothing - the store stays empty, no 0 row is written - and a
second call for the same day attempts remote resolution again. -/
theorem c3_counterexample :
    (oraclePriceForDay failingPriceRemote 737600 []).price = 0
      ∧ (oraclePriceForDay failingPriceRemote 737600 []).store = []
      ∧ (oraclePriceForDay failingPriceRemote 737600
          (oraclePriceForDay failingPriceRemote 737600 []).store).attemptedRemote
        = true := by decide

/-- C4 counterexample: on day 737700 with an empty price store and a remote
that keeps failing (unchanged between the calls), the second
oracle_price_for_day call does perform remote resolution. -/
theorem c4_counterexample :
    (oraclePriceForDay failingPriceRemote 737700
        (oraclePriceForDay failingPriceRemote 737700 []).store).attemptedRemote
      = true := by decide

/-- C7 counterexample, falsifying both halves of the claim at explicit
inputs: with an empty cache, the empty-range request [737000, 737000) does
issue a remote reward fetch (for the empty window); and with a cached
positive row exactly at 737000 (watermark covering the instant), the same
empty-range request issues no fetch but returns that row - a non-empty
result, since the DB read is BETWEEN-inclusive at both ends. -/
theorem c7_counterexample :
    (earnings emptyRewardRemote "a" 737000 737000 []).calls
        = [⟨737000, 737000⟩]
      ∧ (earnings emptyRewardRemote "b" 737000 737000
          [⟨737000, "b", 5⟩]).calls = []
      ∧ (earnings emptyRewardRemote "b" 737000 737000
          [⟨737000, "b", 5⟩]).result = [⟨737000, "b", 5⟩] := by decide

/-- C9 counterexample: the cache rows lying in the requested range
[737001, 737002) all have non-positive sums (the single row at 737001 has sum
0), yet the range is not re-fetched: the positive-sum watermark
(737000, 737005) of the address covers it, so earnings issues no remote
fetch. -/
theorem c9_counterexample :
    (earnings emptyRewardRemote "a" 737001 737002
        [⟨737000, "a", 1⟩, ⟨737001, "a", 0⟩, ⟨737005, "a", 1⟩]).calls
      = [] := by decide

/-- C8: given exactly two reward events on day 2021-03-27 with amounts
100000000 and 50000000 bones and the oracle price for their block equal to
200000000 bones, the daily rollup is a single entry for 2021-03-27 with
hnt = 1.5 and usd = 3.0.  Every floating-point operation the source performs
on these inputs is exact, so the rational model coincides with the binary64
computation. -/
theorem c8_rollup_concrete :
    hotspotEarningsDaily (fun _ => 200000000)
        [⟨"2021-03-27", 100000000, 42⟩, ⟨"2021-03-27", 50000000, 42⟩]
      = [("2021-03-27", 3/2, 3)] := by
  simp only [hotspotEarningsDaily, List.foldl, rollupAdd, BONES_PER_HNT]
  norm_num

/-- C10: paged_api_request keeps its default query_params dict alive across
calls and writes each cursor into it without clearing it.  After one
default-argument call whose script serves a cursor c1, the dict retains c1;
a second call with the identical (defaulted) argument and the identical
script then sends c1 in its very first request, so the two calls issue
different request sequences and produce observably different outputs. -/
theorem c10_default_dict_cursor_leak :
    (pagedApiRequest [PageResp.page [] (some "c1"), PageResp.page [] none]
        none).dictCursor = some "c1"
      ∧ (pagedApiRequest [PageResp.page [] (some "c1"), PageResp.page [] none]
          none).requests.head? = some none
      ∧ (pagedApiRequest [PageResp.page [] (some "c1"), PageResp.page [] none]
          (pagedApiRequest [PageResp.page [] (some "c1"), PageResp.page [] none]
            none).dictCursor).requests.head? = some (some "c1")
      ∧ pagedApiRequest [PageResp.page [] (some "c1"), PageResp.page [] none]
          (pagedApiRequest [PageResp.page [] (some "c1"), PageResp.page [] none]
            none).dictCursor
        ≠ pagedApiRequest [PageResp.page [] (some "c1"), PageResp.page [] none]
            none := by decide

/-! ## Price cache lemmas -/

/-- After a REPLACE of (block, ts, price), the price lookup at ts finds that
price (the inserted row is the last row with that timestamp). -/
theorem dbPriceAtTime_put (b ts p : Int) (st : PriceStore) :
    dbPriceAtTime (dbPricePut b ts p st) ts = some p := by
  unfold dbPriceAtTime dbPricePut
  rw [List.filter_append, List.map_append]
  simp

/-- When resolution fails, _cache_oracle_price persists nothing. -/
theorem cacheOraclePrice_of_fail (remote : PriceRemote) (ts : Int)
    (st : PriceStore) (h : priceResolutionFails remote ts) :
    cacheOraclePrice remote ts st = st := by
  unfold priceResolutionFails at h
  unfold cacheOraclePrice
  cases hb : remote.blockAtTime ts with
  | none => rfl
  | some hgt =>
      rw [hb] at h
      simp only at h
      simp [h]

/-- If the price lookup still misses after _cache_oracle_price ran, then the
resolution persisted nothing (a successful resolution would have left a row
at ts). -/
theorem cacheOraclePrice_lookup_none (remote : PriceRemote) (ts : Int)
    (st : PriceStore)
    (h : dbPriceAtTime (cacheOraclePrice remote ts st) ts = none) :
    cacheOraclePrice remote ts st = st := by
  unfold cacheOraclePrice at h ⊢
  cases hb : remote.blockAtTime ts with
  | none => rfl
  | some hgt =>
      rw [hb] at h
      simp only at h
      cases hp : remote.priceAtBlock hgt with
      | none => simp [hp]
      | some bp =>
          rw [hp] at h
          simp only at h
          obtain ⟨b, p⟩ := bp
          rw [dbPriceAtTime_put] at h
          exact absurd h (by simp)

/-- C3 (amended): for a day in the oracle era whose end-of-day instant has no
cached price, if remote resolution fails then oracle_price_for_day returns 0
and persists nothing - the store is unchanged, no 0 row is written - so a
later call for the same day attempts remote resolution again. -/
theorem c3_failed_resolution_uncached (remote : PriceRemote) (day : Int)
    (st : PriceStore)
    (h0 : ¬ endOfDay day < HELIUM_ORACLE_START)
    (h1 : dbPriceAtTime st (endOfDay day) = none)
    (h2 : priceResolutionFails remote (endOfDay day)) :
    oraclePriceForDay remote day st = ⟨st, 0, true⟩
      ∧ (oraclePriceForDay remote day
          (oraclePriceForDay remote day st).store).attemptedRemote = true := by
  have hc := cacheOraclePrice_of_fail remote (endOfDay day) st h2
  have hcall : oraclePriceForDay remote day st = ⟨st, 0, true⟩ := by
    unfold oraclePriceForDay
    rw [if_neg h0]
    simp only [h1, Option.isNone_none, if_pos, hc, Option.getD_none]
  refine ⟨hcall, ?_⟩
  rw [hcall]
  unfold oraclePriceForDay
  rw [if_neg h0]
  simp only [h1, Option.isNone_none]

/-- Witness for C3: the amended statement at the concrete failing input of
the counterexample family (failing remote, day 737610, empty store). -/
theorem c3_witness :
    oraclePriceForDay failingPriceRemote 737610 [] = ⟨[], 0, true⟩
      ∧ (oraclePriceForDay failingPriceRemote 737610
          (oraclePriceForDay failingPriceRemote 737610 []).store).attemptedRemote
        = true :=
  c3_failed_resolution_uncached failingPriceRemote 737610 []
    (by decide) (by decide)
    (by simp [priceResolutionFails, failingPriceRemote])

/-- C4 (amended): two consecutive oracle_price_for_day calls for the same day
against an unchanged remote return the same price; but the second call
performs remote resolution exactly when the day is in the oracle era and the
first call left no cached price for its end-of-day instant (which is
precisely the failed-resolution case; after a successful resolution, a cache
hit, or a pre-oracle day, the second call resolves nothing remotely). -/
theorem c4_price_stability (remote : PriceRemote) (day : Int)
    (st : PriceStore) :
    (oraclePriceForDay remote day (oraclePriceForDay remote day st).store).price
        = (oraclePriceForDay remote day st).price
      ∧ ((oraclePriceForDay remote day
            (oraclePriceForDay remote day st).store).attemptedRemote = true
          ↔ (¬ endOfDay day < HELIUM_ORACLE_START
              ∧ dbPriceAtTime (oraclePriceForDay remote day st).store
                  (endOfDay day) = none)) := by
  by_cases h0 : endOfDay day < HELIUM_ORACLE_START
  · unfold oraclePriceForDay
    simp [h0]
  · cases h1 : dbPriceAtTime st (endOfDay day) with
    | some p =>
        have hcall : oraclePriceForDay remote day st = ⟨st, p, false⟩ := by
          unfold oraclePriceForDay
          rw [if_neg h0]
          simp [h1]
        rw [hcall]
        unfold oraclePriceForDay
        rw [if_neg h0]
        simp [h1]
    | none =>
        cases h2 : dbPriceAtTime (cacheOraclePrice remote (endOfDay day) st)
            (endOfDay day) with
        | some q =>
            have hcall : oraclePriceForDay remote day st
                = ⟨cacheOraclePrice remote (endOfDay day) st, q, true⟩ := by
              unfold oraclePriceForDay
              rw [if_neg h0]
              simp [h1, h2]
            rw [hcall]
            unfold oraclePriceForDay
            rw [if_neg h0]
            simp [h2]
        | none =>
            have hc := cacheOraclePrice_lookup_none remote (endOfDay day) st h2
            have hcall : oraclePriceForDay remote day st = ⟨st, 0, true⟩ := by
              unfold oraclePriceForDay
              rw [if_neg h0]
              simp only [h1, Option.isNone_none, if_pos, hc, Option.getD_none]
            rw [hcall]
            unfold oraclePriceForDay
            rw [if_neg h0]
            simp [h0, h1, hc]

/-! ## Earnings reconciliation theorems -/

/-- C1 (amended): writing start1 = max(start, 2017-07-29) for the clamped
start the source computes first: with no positive-sum coverage, earnings
fetches exactly [start1, stop); with coverage [dbMin, dbMax], it fetches
[start1, dbMin + 1 sec) exactly when start1 < dbMin and [dbMax - 1 sec, stop)
exactly when dbMax < stop (the one-second adjustments being Python date
arithmetic no-ops); and when dbMin <= start1 and stop <= dbMax it issues no
remote fetch at all and answers from the local store, which it leaves
unchanged. -/
theorem c1_earnings_fetch_windows (remote : RewardRemote) (address : String)
    (start stop : Int) (st : RewardStore) :
    (dbRewardMaxMin st address = none →
        (earnings remote address start stop st).calls
          = [⟨max start HELIUM_BLOCKCHAIN_START, stop⟩])
      ∧ (∀ dbMin dbMax, dbRewardMaxMin st address = some (dbMin, dbMax) →
          (earnings remote address start stop st).calls
              = (if max start HELIUM_BLOCKCHAIN_START < dbMin then
                   [⟨max start HELIUM_BLOCKCHAIN_START, dateAddTd dbMin ONE_SEC⟩]
                 else [])
                ++ (if dbMax < stop then
                      [⟨dateSubTd dbMax ONE_SEC, stop⟩]
                    else [])
            ∧ (dbMin ≤ max start HELIUM_BLOCKCHAIN_START → stop ≤ dbMax →
                (earnings remote address start stop st).calls = []
                  ∧ (earnings remote address start stop st).store = st
                  ∧ (earnings remote address start stop st).result
                      = dbRewardFetch st address
                          (max start HELIUM_BLOCKCHAIN_START) stop)) := by
  constructor
  · intro h
    simp [earnings, h]
  · intro dbMin dbMax h
    constructor
    · simp [earnings, h]
    · intro h1 h2
      have hb : ¬ max start HELIUM_BLOCKCHAIN_START < dbMin := not_lt.mpr h1
      have hf : ¬ dbMax < stop := not_lt.mpr h2
      exact ⟨by simp [earnings, h, hb, hf], by simp [earnings, h, hb, hf],
        by simp [earnings, h, hb, hf]⟩

/-- Witness for C1: a store whose positive-sum watermark (737000, 737005)
covers the request [737001, 737004): no fetch is issued and the store is
untouched. -/
theorem c1_witness :
    (earnings emptyRewardRemote "a" 737001 737004
        [⟨737000, "a", 5⟩, ⟨737005, "a", 7⟩]).calls = []
      ∧ (earnings emptyRewardRemote "a" 737001 737004
          [⟨737000, "a", 5⟩, ⟨737005, "a", 7⟩]).store
        = [⟨737000, "a", 5⟩, ⟨737005, "a", 7⟩] := by
  have h := (c1_earnings_fetch_windows emptyRewardRemote "a" 737001 737004
      [⟨737000, "a", 5⟩, ⟨737005, "a", 7⟩]).2 737000 737005 (by decide)
  have h2 := h.2 (by decide) (by decide)
  exact ⟨h2.1, h2.2.1⟩

/-- C7 (amended): for an instant t at or after the blockchain start, the
empty-range request [t, t) issues no remote fetch exactly when the
positive-sum watermark of the address exists and covers t (db_min <= t and
t <= db_max); in the covered case the store is unchanged and the result is
the cached rows with timestamp exactly t (so the empty list whenever no
cached row sits at t); with an absent watermark, or a watermark that does
not cover t, a remote fetch is issued. -/
theorem c7_empty_range_behaviour (remote : RewardRemote) (address : String)
    (t : Int) (st : RewardStore) (ht : HELIUM_BLOCKCHAIN_START ≤ t) :
    ((earnings remote address t t st).calls = []
        ↔ ∃ dbMin dbMax, dbRewardMaxMin st address = some (dbMin, dbMax)
            ∧ dbMin ≤ t ∧ t ≤ dbMax)
      ∧ (∀ dbMin dbMax, dbRewardMaxMin st address = some (dbMin, dbMax) →
          dbMin ≤ t → t ≤ dbMax →
            (earnings remote address t t st).store = st
              ∧ (earnings remote address t t st).result
                  = sortByTimestamp (st.filter (fun r =>
                      r.address == address && r.timestamp == t))) := by
  have hmax : max t HELIUM_BLOCKCHAIN_START = t := max_eq_left ht
  constructor
  · cases h : dbRewardMaxMin st address with
    | none =>
        have hcalls : (earnings remote address t t st).calls
            = [⟨max t HELIUM_BLOCKCHAIN_START, t⟩] := by
          simp [earnings, h]
        constructor
        · intro hc
          rw [hcalls] at hc
          exact absurd hc (by simp)
        · rintro ⟨mn, mx, hmm, -, -⟩
          exact absurd hmm (by simp)
    | some p =>
        obtain ⟨dbMin, dbMax⟩ := p
        have hcalls : (earnings remote address t t st).calls
            = (if t < dbMin then [⟨t, dateAddTd dbMin ONE_SEC⟩] else [])
              ++ (if dbMax < t then [⟨dateSubTd dbMax ONE_SEC, t⟩] else []) := by
          simp [earnings, h, hmax]
        rw [hcalls]
        constructor
        · intro hc
          rcases List.append_eq_nil.mp hc with ⟨hc1, hc2⟩
          refine ⟨dbMin, dbMax, rfl, ?_, ?_⟩
          · by_contra hlt
            rw [if_pos (not_le.mp hlt)] at hc1
            exact absurd hc1 (by simp)
          · by_contra hlt
            rw [if_pos (not_le.mp hlt)] at hc2
            exact absurd hc2 (by simp)
        · rintro ⟨mn, mx, hmm, h1, h2⟩
          obtain ⟨heq1, heq2⟩ : dbMin = mn ∧ dbMax = mx := by
            have hp := Option.some.inj hmm
            exact ⟨congrArg Prod.fst hp, congrArg Prod.snd hp⟩
          rw [if_neg (not_lt.mpr (heq1 ▸ h1)), if_neg (not_lt.mpr (heq2 ▸ h2))]
          rfl
  · intro dbMin dbMax h h1 h2
    have hb : ¬ max t HELIUM_BLOCKCHAIN_START < dbMin := by
      rw [hmax]; exact not_lt.mpr h1
    have hf : ¬ dbMax < t := not_lt.mpr h2
    have hfil : st.filter (fun r =>
          r.address == address && decide (t ≤ r.timestamp)
            && decide (r.timestamp ≤ t))
        = st.filter (fun r => r.address == address && r.timestamp == t) := by
      apply List.filter_congr
      intro r _
      by_cases h1t : t ≤ r.timestamp
      · by_cases h2t : r.timestamp ≤ t
        · have heq : r.timestamp = t := le_antisymm h2t h1t
          simp [heq]
        · have hne : ¬ r.timestamp = t := by omega
          simp [h1t, h2t, hne]
      · have hne : ¬ r.timestamp = t := by omega
        simp [h1t, hne]
    refine ⟨by simp [earnings, h, hb, hf], ?_⟩
    have hres : (earnings remote address t t st).result
        = dbRewardFetch st address (max t HELIUM_BLOCKCHAIN_START) t := by
      simp [earnings, h, hb, hf]
    rw [hres, hmax, dbRewardFetch, hfil]

/-- Witness for C7: a store with a single positive row at 737000 covers the
empty request [737000, 737000): the iff gives no fetch, and the covered case
gives the unchanged store. -/
theorem c7_witness :
    (earnings emptyRewardRemote "a" 737000 737000 [⟨737000, "a", 5⟩]).calls
        = []
      ∧ (earnings emptyRewardRemote "a" 737000 737000
          [⟨737000, "a", 5⟩]).store = [⟨737000, "a", 5⟩] := by
  have h := c7_empty_range_behaviour emptyRewardRemote "a" 737000
    [⟨737000, "a", 5⟩] (by decide)
  exact ⟨h.1.mpr ⟨737000, 737000, by decide, by decide, by decide⟩,
    (h.2 737000 737000 (by decide) (by decide) (by decide)).1⟩

/-- C9 (amended): the watermark is insensitive to non-positive rows - it is
computed from the positive-sum rows alone, so a row persisted with a zero or
negative sum never extends or counts toward it - and for an address all of
whose cached rows have non-positive sums the watermark is absent, so every
earnings call for that address fetches the whole clamped window remotely. -/
theorem c9_positive_watermark (remote : RewardRemote) (address : String)
    (start stop : Int) (st : RewardStore) :
    dbRewardMaxMin st address
        = dbRewardMaxMin (st.filter (fun r => decide (0 < r.sum_bones))) address
      ∧ ((∀ r ∈ st, r.address = address → r.sum_bones ≤ 0) →
          (earnings remote address start stop st).calls
            = [⟨max start HELIUM_BLOCKCHAIN_START, stop⟩]) := by
  constructor
  · have hfil : (st.filter (fun r => decide (0 < r.sum_bones))).filter
          (fun r => r.address == address && decide (0 < r.sum_bones))
        = st.filter (fun r => r.address == address && decide (0 < r.sum_bones)) := by
      rw [List.filter_filter]
      apply List.filter_congr
      intro r _
      cases hpos : decide (0 < r.sum_bones) <;> simp [hpos]
    simp only [dbRewardMaxMin]
    rw [hfil]
  · intro h
    have hnil : st.filter (fun r =>
          r.address == address && decide (0 < r.sum_bones)) = [] := by
      rw [List.filter_eq_nil_iff]
      intro r hr
      by_cases ha : r.address = address
      · have hs := h r hr ha
        simp [ha]
        omega
      · simp [ha]
    have hnone : dbRewardMaxMin st address = none := by
      simp [dbRewardMaxMin, hnil]
    simp [earnings, hnone]

/-- Witness for C9: a store holding only a zero-sum row for the address has
no coverage, so the whole clamped window is fetched. -/
theorem c9_witness :
    (earnings emptyRewardRemote "a" 737001 737002 [⟨737000, "a", 0⟩]).calls
      = [⟨737001, 737002⟩] := by
  have h := (c9_positive_watermark emptyRewardRemote "a" 737001 737002
      [⟨737000, "a", 0⟩]).2 (by decide)
  have hm : max (737001 : Int) HELIUM_BLOCKCHAIN_START = 737001 := by decide
  rw [hm] at h
  exact h

/-! ## Paged fetcher error behaviour -/

/-- The paging loop, run on a script of good cursor-bearing pages followed by
an error, accumulates every good page, stops at the error, and issues exactly
one request per consumed response. -/
theorem pagedGo_err_partial (good : List (List Int × String)) :
    ∀ (rest : List PageResp) (dictC c : Option String) (acc : List Int)
      (reqs : List (Option String)),
      (pagedGo dictC c acc reqs
          ((good.map (fun g => PageResp.page g.1 (some g.2)))
            ++ PageResp.err :: rest)).result
          = Sum.inl (acc ++ (good.map (fun g => g.1)).flatten)
        ∧ (pagedGo dictC c acc reqs
            ((good.map (fun g => PageResp.page g.1 (some g.2)))
              ++ PageResp.err :: rest)).requests.length
          = reqs.length + (good.length + 1) := by
  induction good with
  | nil =>
      intro rest dictC c acc reqs
      simp [pagedGo]
  | cons g gs ih =>
      intro rest dictC c acc reqs
      simp only [List.map_cons, List.cons_append, pagedGo, List.append_eq]
      constructor
      · rw [(ih rest _ (some g.2) (acc ++ g.1) _).1]
        simp [List.append_assoc]
      · rw [(ih rest _ (some g.2) (acc ++ g.1) _).2]
        simp only [List.length_append, List.length_cons, List.length_nil]
        omega

/-- C6: when the request after k good cursor pages fails (transport or decode
error), paged_api_request stops paging immediately - it makes exactly k+1
requests, none after the error - and returns the records accumulated from the
pages received before the error.  The model is a total function: the except
clause of the source turns the failure into loop exit, so no exception
reaches the caller. -/
theorem c6_paged_error_returns_partial (good : List (List Int × String))
    (rest : List PageResp) (dflt : Option String) :
    (pagedApiRequest
        ((good.map (fun g => PageResp.page g.1 (some g.2)))
          ++ PageResp.err :: rest) dflt).result
        = Sum.inl (good.map (fun g => g.1)).flatten
      ∧ (pagedApiRequest
          ((good.map (fun g => PageResp.page g.1 (some g.2)))
            ++ PageResp.err :: rest) dflt).requests.length
        = good.length + 1 := by
  have h := pagedGo_err_partial good rest dflt none [] []
  unfold pagedApiRequest
  exact ⟨by rw [h.1]; simp, by rw [h.2]; simp⟩
